import Mathlib

/-!
Verification of the summarizator bot's core logic against its specification.

The development shallowly embeds the core components of the repository:

* `bot/content_processors/youtube_processor.py` — the tiered video-caption
  extraction state machine (`extract_content`, `_fetch_transcript`,
  `_fetch_transcript_ytdlp`, `_download_subtitle_ytdlp`, `_parse_vtt`);
* `bot/content_processors/pdf_processor.py` — page-by-page PDF extraction;
* `bot/rag/rag_manager.py`, `bot/rag/embedding_store.py`,
  `bot/storage/file_storage.py` — the per-user document index
  (upsert, query, delete);
* `bot/storage/models.py` — the persisted `Document` and `Message` records
  and their serialization round trips.

External collaborators (the transcript service, yt-dlp, the vector database,
the JSON library, the datetime library) are modelled at their interface
boundary: network calls become oracle functions passed as parameters, and the
well-specified library routines (ISO-8601 datetime formatting and parsing)
are implemented concretely.
-/

set_option maxHeartbeats 1000000

namespace Summarizator

/-! ### Python string helpers -/

/-- Python whitespace characters (the ASCII range of `\s` and `str.strip`). -/
def isPySpace (c : Char) : Bool :=
  c = ' ' || c = '\t' || c = '\n' || c = '\r' || c = '\x0b' || c = '\x0c'

/-- Python `str.strip()` on a character list. -/
def pyStripChars (cs : List Char) : List Char :=
  ((cs.dropWhile isPySpace).reverse.dropWhile isPySpace).reverse

/-- Python `str.strip()`. -/
def pyStrip (s : String) : String :=
  ⟨pyStripChars s.data⟩

/-- ASCII decimal digit test. -/
def isAsciiDigit (c : Char) : Bool :=
  48 ≤ c.toNat && c.toNat ≤ 57

/-- Python `str.isdigit()` (restricted to ASCII digits): nonempty and all digits. -/
def pyIsDigit (cs : List Char) : Bool :=
  !cs.isEmpty && cs.all isAsciiDigit

/-- Python `sep.join(parts)` for string lists. -/
def joinSep (sep : String) : List String → String
  | [] => ""
  | [p] => p
  | p :: ps => p ++ sep ++ joinSep sep ps

/-- `' '.join` on character-list lines. -/
def joinSpace : List (List Char) → List Char
  | [] => []
  | [l] => l
  | l :: ls => l ++ ' ' :: joinSpace ls

/-! ### `YouTubeProcessor._parse_vtt`

`_parse_vtt` iterates over `content.split('\n')`, strips each line, skips
header/timing/note/style/cue/numeric lines, removes `<...>` markup groups
(the regex `<[^>]+>`), keeps the lines that remain nonempty, and joins them
with single spaces; it returns `None` when nothing survives.
-/

/-- Split a character list at the first `'>'`: the characters strictly before
it and the characters strictly after it. -/
def splitAtGt : List Char → Option (List Char × List Char)
  | [] => none
  | c :: cs =>
    if c = '>' then some ([], cs)
    else
      match splitAtGt cs with
      | some (a, b) => some (c :: a, b)
      | none => none

/-- `re.sub(r'<[^>]+>', '', line)` with explicit fuel (each step consumes at
least one character, so `cs.length` fuel is always sufficient): drop every
maximal `<...>` group with a nonempty body, scanning left to right
(non-overlapping leftmost matches). -/
def stripTagsF : Nat → List Char → List Char
  | _, [] => []
  | 0, cs => cs
  | fuel + 1, c :: cs =>
    if c = '<' then
      match splitAtGt cs with
      | some (body, rest) =>
        if body.isEmpty then c :: stripTagsF fuel cs else stripTagsF fuel rest
      | none => c :: stripTagsF fuel cs
    else c :: stripTagsF fuel cs

/-- `re.sub(r'<[^>]+>', '', line)`. -/
def stripTags (cs : List Char) : List Char :=
  stripTagsF cs.length cs

/-- The line filter of `_parse_vtt`, applied to an already-stripped line:
keep the line when it is nonempty, is not a `WEBVTT` header, contains no
`-->` timing arrow, is not a `NOTE`/`STYLE`/`::cue` line, and is not a bare
numeric cue index. -/
def vttKeep (l : List Char) : Bool :=
  !l.isEmpty &&
  !(("WEBVTT".data).isPrefixOf l) &&
  !(decide ("-->".data <:+: l)) &&
  !(("NOTE".data).isPrefixOf l) &&
  !(("STYLE".data).isPrefixOf l) &&
  !(("::cue".data).isPrefixOf l) &&
  !(pyIsDigit l)

/-- One iteration of `_parse_vtt`'s loop: strip the line, apply the filter,
strip markup tags, and keep the result only when it is still nonempty. -/
def vttProcessLine (line : List Char) : Option (List Char) :=
  let l := pyStripChars line
  if vttKeep l then
    let l2 := stripTags l
    if l2.isEmpty then none else some l2
  else none

/-- The surviving lines of `_parse_vtt` over `content.split('\n')`. -/
def vttLines (content : List Char) : List (List Char) :=
  (content.splitOnP (fun c => c = '\n')).filterMap vttProcessLine

/-- `YouTubeProcessor._parse_vtt`: `' '.join(lines) if lines else None`. -/
def parseVtt (content : String) : Option String :=
  let ls := vttLines content.data
  if ls.isEmpty then none else some ⟨joinSpace ls⟩

/-! ### `PDFProcessor.extract_content` (page loop)

The processor walks `reader.pages` with 1-based numbering, keeps every page
whose extracted text strips to a nonempty string as a `## Page n` section, and
raises (kind `NoExtractableText`) when no section survives.  The network fetch
and the library's per-page text extraction are abstracted into the input
`pages`, the list of per-page extracted texts.
-/

/-- The section emitted for page number `n` with raw extracted text `t`. -/
def pageSection (n : Nat) (t : String) : String :=
  "## Page " ++ toString n ++ "\n\n" ++ pyStrip t

/-- The `for page_num, page in enumerate(reader.pages, 1)` loop, started at
page number `n`. -/
def pdfSectionsFrom (n : Nat) : List String → List String
  | [] => []
  | t :: ts =>
    if pyStrip t ≠ "" then pageSection n t :: pdfSectionsFrom (n + 1) ts
    else pdfSectionsFrom (n + 1) ts

/-- `PDFProcessor.extract_content` after the download: one section per page
with extractable text, joined with blank lines; `none` models the
`No text could be extracted from PDF` failure (kind `NoExtractableText`). -/
def extractPdfText (pages : List String) : Option String :=
  let parts := pdfSectionsFrom 1 pages
  if parts.isEmpty then none else some (joinSep "\n\n" parts)

/-! ### Lemmas about the VTT parser -/

theorem vttProcessLine_ne_nil {line l : List Char} (h : vttProcessLine line = some l) :
    l ≠ [] := by
  simp only [vttProcessLine] at h
  split at h
  · split at h
    · simp at h
    · rename_i he
      rw [Option.some_inj] at h
      subst h
      simpa using he
  · simp at h

theorem joinSpace_ne_nil {l : List Char} {ls : List (List Char)} (h : l ≠ []) :
    joinSpace (l :: ls) ≠ [] := by
  cases ls <;> simp [joinSpace, h]

theorem parseVtt_some_ne_empty {c s : String} (h : parseVtt c = some s) : s ≠ "" := by
  simp only [parseVtt] at h
  split at h
  · simp at h
  · rename_i hne
    rw [Option.some_inj] at h
    cases hls : vttLines c.data with
    | nil => rw [hls] at hne; simp at hne
    | cons m ms =>
      have hm : m ∈ vttLines c.data := by rw [hls]; exact List.mem_cons_self m ms
      obtain ⟨line, _, hline⟩ := List.mem_filterMap.mp hm
      have hmne : m ≠ [] := vttProcessLine_ne_nil hline
      rw [hls] at h
      intro hcon
      rw [hcon] at h
      have : joinSpace (m :: ms) = [] := by
        have := congrArg String.data h
        simpa using this.symm
      exact joinSpace_ne_nil hmne this

/-! ### Lemmas about the PDF page loop -/

theorem pdfSectionsFrom_length (pages : List String) :
    ∀ n, (pdfSectionsFrom n pages).length
      = (pages.filter (fun t => pyStrip t ≠ "")).length := by
  induction pages with
  | nil => intro n; simp [pdfSectionsFrom]
  | cons t ts ih =>
    intro n
    by_cases h : pyStrip t ≠ "" <;> simp [pdfSectionsFrom, h, List.filter, ih]

theorem pdfSectionsFrom_all_empty {pages : List String}
    (h : ∀ t ∈ pages, pyStrip t = "") : ∀ n, pdfSectionsFrom n pages = [] := by
  induction pages with
  | nil => intro n; rfl
  | cons t ts ih =>
    intro n
    have ht := h t (List.mem_cons_self t ts)
    have hts : ∀ u ∈ ts, pyStrip u = "" := fun u hu => h u (List.mem_cons_of_mem t hu)
    simp [pdfSectionsFrom, ht, ih hts]

theorem pdfSectionsFrom_append_empty {pre : List String}
    (h : ∀ u ∈ pre, pyStrip u = "") (rest : List String) :
    ∀ n, pdfSectionsFrom n (pre ++ rest) = pdfSectionsFrom (n + pre.length) rest := by
  induction pre with
  | nil => intro n; simp
  | cons u us ih =>
    intro n
    have hu := h u (List.mem_cons_self u us)
    have hus : ∀ v ∈ us, pyStrip v = "" := fun v hv => h v (List.mem_cons_of_mem u hv)
    simp only [List.cons_append, pdfSectionsFrom, hu]
    rw [if_neg (by simp), show us.append rest = us ++ rest from rfl, ih hus (n + 1)]
    congr 1
    simp [List.length_cons]
    omega

/-! ### Claim theorems for the parsers -/

/-- C8: the cue-format subtitle parser strips the header line, timing lines,
cue markup tags, and bare numeric index lines, joins the surviving lines with
single spaces (the worked example yields exactly `Hello world foo`), and on
malformed input it returns no text (an empty result, `none`) rather than
raising — moreover whenever it does return text, the text is nonempty. -/
theorem claim_C8 :
    parseVtt "WEBVTT\n\n00:00:01.000 --> 00:00:02.000\nHello <b>world</b>\n\n1\nfoo"
        = some "Hello world foo"
    ∧ parseVtt "00:00 --> bad <unclosed" = none
    ∧ ∀ c s, parseVtt c = some s → s ≠ "" := by
  refine ⟨by decide, by decide, ?_⟩
  intro c s h
  exact parseVtt_some_ne_empty h

/-- Closed witness for C8: the worked example discharges the hypothesis of the
nonemptiness conjunct. -/
theorem claim_C8_witness : "Hello world foo" ≠ "" :=
  claim_C8.2.2 _ _ claim_C8.1

/-- C9: PDF extraction emits one section per page with extractable text
(sections counted by the pages whose text strips to nonempty), silently
omitting empty pages; a document where only one page has text yields exactly
that one page-numbered section; a document with no extractable text on any
page fails (kind `NoExtractableText`, modelled as `none`) instead of
returning an empty result. -/
theorem claim_C9 :
    (∀ pages : List String, (pdfSectionsFrom 1 pages).length
        = (pages.filter (fun t => pyStrip t ≠ "")).length)
    ∧ (∀ (pre : List String) (t : String) (post : List String),
        (∀ u ∈ pre, pyStrip u = "") → (∀ u ∈ post, pyStrip u = "") →
        pyStrip t ≠ "" →
        extractPdfText (pre ++ t :: post) = some (pageSection (pre.length + 1) t))
    ∧ (∀ pages : List String, (∀ t ∈ pages, pyStrip t = "") →
        extractPdfText pages = none) := by
  refine ⟨fun pages => pdfSectionsFrom_length pages 1, ?_, ?_⟩
  · intro pre t post hpre hpost ht
    have h1 : pdfSectionsFrom 1 (pre ++ t :: post)
        = pdfSectionsFrom (1 + pre.length) (t :: post) :=
      pdfSectionsFrom_append_empty hpre (t :: post) 1
    have h2 : pdfSectionsFrom (1 + pre.length) (t :: post)
        = [pageSection (1 + pre.length) t] := by
      simp [pdfSectionsFrom, ht, pdfSectionsFrom_all_empty hpost]
    simp only [extractPdfText, h1, h2]
    rw [Nat.add_comm 1 pre.length] at *
    simp [joinSep]
  · intro pages h
    simp [extractPdfText, pdfSectionsFrom_all_empty h 1]

/-- Closed witness for C9: a three-page document where only page 2 has text
yields exactly the page-2 section, and an all-empty document yields the
`NoExtractableText` failure. -/
theorem claim_C9_witness :
    extractPdfText ["", "hello world ", "  "] = some (pageSection 2 "hello world ")
    ∧ extractPdfText ["", "  "] = none := by
  constructor
  · exact claim_C9.2.1 [""] "hello world " ["  "] (by decide) (by decide) (by decide)
  · exact claim_C9.2.2 ["", "  "] (by decide)

/-! ### `YouTubeProcessor` — the tiered caption-extraction state machine

The network is abstracted into oracles:

* `api : Nat → ApiResult` gives, for each tier-2 attempt index, the behaviour
  of the `youtube-transcript-api` call (a listing of caption tracks, or an
  exception that either is or is not a rate limit — the code tests for the
  substring `'429'` in the exception text);
* `download : String → Nat → DownloadResult` gives, for each language and
  tier-3 attempt index, the behaviour of the yt-dlp subtitle download (a
  `.vtt` file with some content, no file produced, or an exception that
  either is or is not a rate limit);
* `Info` is the yt-dlp metadata dictionary from `_get_video_info`
  (`none` when the probe failed); a structure field that is `none` models a
  missing dictionary key.

Sleeps (`time.sleep(3 + attempt * 4)`) are recorded as a trace of delays in
seconds so the backoff schedule is observable.
-/

/-- One caption track as listed by the transcript service: its language code
and the text of its fetched segments joined with single spaces
(`' '.join(seg.text for seg in transcript.fetch())`). -/
structure Track where
  lang : String
  text : String
deriving DecidableEq, Repr

/-- The yt-dlp metadata dictionary (the fields the processor reads). -/
structure Info where
  language : Option String
  subtitles : List String
  automaticCaptions : List String
deriving DecidableEq, Repr

/-- Outcome of one `YouTubeTranscriptApi` attempt: a successful listing (with
the fetch of the selected track succeeding), or an exception whose text does
(`is429 = true`) or does not contain `'429'`. -/
inductive ApiResult where
  | ok (tracks : List Track)
  | err (is429 : Bool)
deriving DecidableEq, Repr

/-- Outcome of one yt-dlp subtitle-download attempt for one language: a
`.vtt` file with the given content, no subtitle file produced, or an
exception whose text does (`is429 = true`) or does not contain `'429'`. -/
inductive DownloadResult where
  | file (content : String)
  | noFile
  | err (is429 : Bool)
deriving DecidableEq, Repr

/-- `original_lang = info.get('language', 'en') if info else 'en'`
(in `extract_content`). -/
def origLangOf : Option Info → String
  | some i => i.language.getD "en"
  | none => "en"

/-- The tier-2 language priority list of `_fetch_transcript`:
`['en']`, extended with the original language and its `-orig` variant when
the original language is truthy and not `'en'`. -/
def priorityLangs (originalLang : String) : List String :=
  if originalLang ≠ "" ∧ originalLang ≠ "en" then
    ["en", originalLang, originalLang ++ "-orig"]
  else ["en"]

/-- Track selection inside one tier-2 attempt: try
`transcripts.find_transcript([lang])` for each priority language in order
(modelled as the first listed track with that language code), then fall back
to the first listed track of any language. -/
def selectTranscript (tracks : List Track) (originalLang : String) : Option Track :=
  match (priorityLangs originalLang).findSome?
      (fun lang => tracks.find? (fun t => t.lang = lang)) with
  | some t => some t
  | none => tracks.head?

/-- Result of `_fetch_transcript`: the transcript text (or `None`), the
rate-limited flag, and the trace of backoff sleeps in seconds. -/
structure Tier2Result where
  text : Option String
  rateLimited : Bool
  sleeps : List Nat
deriving DecidableEq, Repr

/-- The `for attempt in range(3)` loop of `_fetch_transcript`, starting at
`attempt` with the given remaining fuel (the loop gives 3 attempts in all;
exhausting the fuel is the loop's fall-through `return None, True`). -/
def fetchTranscriptFrom (api : Nat → ApiResult) (originalLang : String) :
    Nat → Nat → Tier2Result
  | _, 0 => ⟨none, true, []⟩
  | attempt, fuel + 1 =>
    match api attempt with
    | .ok tracks =>
      match selectTranscript tracks originalLang with
      | none => ⟨none, false, []⟩
      | some t => ⟨some t.text, false, []⟩
    | .err is429 =>
      if is429 then
        if attempt < 2 then
          let r := fetchTranscriptFrom api originalLang (attempt + 1) fuel
          ⟨r.text, r.rateLimited, (3 + attempt * 4) :: r.sleeps⟩
        else ⟨none, true, []⟩
      else ⟨none, false, []⟩

/-- `YouTubeProcessor._fetch_transcript`. -/
def fetchTranscript (api : Nat → ApiResult) (originalLang : String) : Tier2Result :=
  fetchTranscriptFrom api originalLang 0 3

/-- The base tier-3 language list of `_fetch_transcript_ytdlp`:
`['en', original_lang] if original_lang != 'en' else ['en']`. -/
def baseLangs (originalLang : String) : List String :=
  if originalLang ≠ "en" then ["en", originalLang] else ["en"]

/-- The caption languages the metadata probe reported:
`list(subtitles.keys()) + list(auto.keys())` when the probe succeeded,
`[]` otherwise. -/
def availableLangs : Option Info → List String
  | some i => i.subtitles ++ i.automaticCaptions
  | none => []

/-- The tier-3 candidate list: the base list extended, in order, with every
reported language not already present. -/
def langsToTry (originalLang : String) (info : Option Info) : List String :=
  (availableLangs info).foldl
    (fun acc lang => if lang ∈ acc then acc else acc ++ [lang]) (baseLangs originalLang)

/-- Result of `_download_subtitle_ytdlp` for one language: the parsed
transcript (or `None`) and the trace of backoff sleeps in seconds. -/
structure DlResult where
  text : Option String
  sleeps : List Nat
deriving DecidableEq, Repr

/-- The `for attempt in range(3)` loop of `_download_subtitle_ytdlp`,
starting at `attempt` with the given remaining fuel (the loop's fall-through
returns `None`). -/
def downloadSubtitleFrom (download : Nat → DownloadResult) : Nat → Nat → DlResult
  | _, 0 => ⟨none, []⟩
  | attempt, fuel + 1 =>
    match download attempt with
    | .file content => ⟨parseVtt content, []⟩
    | .noFile => ⟨none, []⟩
    | .err is429 =>
      if is429 ∧ attempt < 2 then
        let r := downloadSubtitleFrom download (attempt + 1) fuel
        ⟨r.text, (3 + attempt * 4) :: r.sleeps⟩
      else ⟨none, []⟩

/-- `YouTubeProcessor._download_subtitle_ytdlp` for one language: a fresh
3-attempt budget over that language's download oracle. -/
def downloadSubtitle (download : String → Nat → DownloadResult) (lang : String) : DlResult :=
  downloadSubtitleFrom (download lang) 0 3

/-- Python truthiness of an optional string (`None` and `''` are falsy). -/
def pyFalsy : Option String → Bool
  | none => true
  | some s => s.isEmpty

/-- The `for lang in langs_to_try` loop of `_fetch_transcript_ytdlp`:
return the first truthy per-language download result. -/
def tryLangs (download : String → Nat → DownloadResult) : List String → Option String
  | [] => none
  | lang :: rest =>
    let result := (downloadSubtitle download lang).text
    if pyFalsy result then tryLangs download rest else result

/-- `YouTubeProcessor._fetch_transcript_ytdlp`. -/
def fetchTranscriptYtdlp (download : String → Nat → DownloadResult)
    (originalLang : String) (info : Option Info) : Option String :=
  tryLangs download (langsToTry originalLang info)

/-- The observable outcome of `extract_content`: a successful transcript, the
rate-limited failure (`YouTube is rate-limiting caption requests. Please try
again in a few minutes.`), or the not-found failure (`No subtitles or
captions available for this video`). -/
inductive ExtractOutcome where
  | success (text : String)
  | rateLimitedFailure
  | notFoundFailure
deriving DecidableEq, Repr

/-- `re.sub(r'\s+', ' ', s)` with explicit fuel (each step consumes at least
one character, so `cs.length` fuel is always sufficient): collapse whitespace
runs to single spaces. -/
def collapseWsF : Nat → List Char → List Char
  | _, [] => []
  | 0, cs => cs
  | fuel + 1, c :: cs =>
    if isPySpace c then ' ' :: collapseWsF fuel (cs.dropWhile isPySpace)
    else c :: collapseWsF fuel cs

/-- The whitespace normalization of `extract_content`'s success path:
`re.sub(r'\s+', ' ', subtitle_text).strip()`. -/
def collapseWs (s : String) : String :=
  pyStrip ⟨collapseWsF s.data.length s.data⟩

/-- `YouTubeProcessor.extract_content` after the metadata probe (tier 1,
whose outcome is the `info` parameter): tier 2, the conditional tier-3
fallback, and the final outcome selection. -/
def extractContent (api : Nat → ApiResult) (download : String → Nat → DownloadResult)
    (info : Option Info) : ExtractOutcome :=
  let originalLang := origLangOf info
  let r := fetchTranscript api originalLang
  let subtitleText : Option String :=
    if pyFalsy r.text ∧ r.rateLimited = false then
      fetchTranscriptYtdlp download originalLang info
    else r.text
  if pyFalsy subtitleText then
    if r.rateLimited then .rateLimitedFailure else .notFoundFailure
  else .success ("# YouTube Video Transcript\n\n" ++ collapseWs (subtitleText.getD ""))

/-! ### Lemmas about the tiered state machine -/

theorem fetchTranscriptFrom_rateLimited_text_none (api : Nat → ApiResult)
    (lang : String) :
    ∀ fuel attempt, (fetchTranscriptFrom api lang attempt fuel).rateLimited = true →
      (fetchTranscriptFrom api lang attempt fuel).text = none := by
  intro fuel
  induction fuel with
  | zero => intro attempt _; rfl
  | succ fuel ih =>
    intro attempt h
    simp only [fetchTranscriptFrom] at h ⊢
    cases hapi : api attempt with
    | ok tracks =>
      rw [hapi] at h
      cases hsel : selectTranscript tracks lang <;> simp [hsel] at h
    | err is429 =>
      rw [hapi] at h
      cases is429 with
      | false => simp at h
      | true =>
        by_cases hlt : attempt < 2
        · simp only [hlt] at h ⊢
          simp at h ⊢
          exact ih (attempt + 1) h
        · simp [hlt] at h ⊢

/-- C1: when every tier-2 attempt receives a rate-limit signal,
`_fetch_transcript` retries twice with backoff delays of exactly 3s then 7s,
returns no text with the rate-limited flag set, tier 3 is never invoked (the
outcome is independent of the subtitle-download oracle), and the extraction
fails with the rate-limited outcome rather than the not-found one. -/
theorem claim_C1 (api : Nat → ApiResult) (h : ∀ n, api n = .err true)
    (info : Option Info) (d1 d2 : String → Nat → DownloadResult) :
    fetchTranscript api (origLangOf info) = ⟨none, true, [3, 7]⟩
    ∧ extractContent api d1 info = .rateLimitedFailure
    ∧ extractContent api d1 info = extractContent api d2 info := by
  have h2 : fetchTranscript api (origLangOf info) = ⟨none, true, [3, 7]⟩ := by
    simp [fetchTranscript, fetchTranscriptFrom, h 0, h 1, h 2]
  refine ⟨h2, ?_, ?_⟩ <;>
    simp [extractContent, h2, pyFalsy]

/-- Closed witness for C1: the all-rate-limited transcript service yields the
rate-limited failure for two different download oracles. -/
theorem claim_C1_witness :
    fetchTranscript (fun _ => ApiResult.err true) (origLangOf none)
        = ⟨none, true, [3, 7]⟩
    ∧ extractContent (fun _ => ApiResult.err true)
        (fun _ _ => DownloadResult.file "WEBVTT\nhello") none
        = .rateLimitedFailure
    ∧ extractContent (fun _ => ApiResult.err true)
        (fun _ _ => DownloadResult.noFile) none
        = .rateLimitedFailure := by
  have h := claim_C1 (fun _ => ApiResult.err true) (fun _ => rfl) none
    (fun _ _ => DownloadResult.file "WEBVTT\nhello") (fun _ _ => DownloadResult.noFile)
  exact ⟨h.1, h.2.1, h.2.2.symm.trans h.2.1⟩

/-- C3 counterexample: tier 2 finds no caption tracks (not rate-limited), and
every tier-3 subtitle-download attempt is rate-limited, so tier 3 exhausts
its full 3-attempt budget (backoff 3s then 7s) on an unrecovered rate limit;
yet the extraction fails with the not-found outcome, not the rate-limited
one — refuting the claim that a rate limit exhausted only inside tier 3 also
yields the RateLimited outcome. -/
theorem claim_C3_counterexample :
    (downloadSubtitle (fun _ _ => DownloadResult.err true) "en").sleeps = [3, 7]
    ∧ (downloadSubtitle (fun _ _ => DownloadResult.err true) "en").text = none
    ∧ extractContent (fun _ => ApiResult.ok []) (fun _ _ => DownloadResult.err true) none
        = .notFoundFailure
    ∧ extractContent (fun _ => ApiResult.ok []) (fun _ _ => DownloadResult.err true) none
        ≠ .rateLimitedFailure := by
  refine ⟨by decide, by decide, by decide, by decide⟩

/-- C3 amended: when no tier produces text the failure kind distinguishes
rate limiting from absence, but only tier 2's rate-limit state is consulted:
the extraction ends in the rate-limited outcome exactly when tier 2 exhausted
its retries on rate-limit signals; a rate limit inside tier 3 is not tracked
and falls into the not-found outcome. -/
theorem claim_C3_amended (api : Nat → ApiResult)
    (download : String → Nat → DownloadResult) (info : Option Info) :
    extractContent api download info = .rateLimitedFailure
      ↔ (fetchTranscript api (origLangOf info)).rateLimited = true := by
  constructor
  · intro h
    by_contra hrl
    rw [Bool.not_eq_true] at hrl
    simp only [extractContent, hrl] at h
    by_cases hf : pyFalsy (fetchTranscript api (origLangOf info)).text = true
    · simp only [hf] at h
      by_cases hf3 :
          pyFalsy (fetchTranscriptYtdlp download (origLangOf info) info) = true <;>
        simp [hf3] at h
    · simp [hf] at h
  · intro hrl
    have htext : (fetchTranscript api (origLangOf info)).text = none :=
      fetchTranscriptFrom_rateLimited_text_none api (origLangOf info) 3 0 hrl
    simp [extractContent, hrl, htext, pyFalsy]

/-! ### Language-priority lemmas (tiers 2 and 3) -/

theorem findSome?_append_of_forall_none {α β : Type} (f : α → Option β)
    {l1 : List α} (h : ∀ m ∈ l1, f m = none) (rest : List α) :
    (l1 ++ rest).findSome? f = rest.findSome? f := by
  induction l1 with
  | nil => simp
  | cons x xs ih =>
    have hx := h x (List.mem_cons_self x xs)
    have hxs : ∀ m ∈ xs, f m = none := fun m hm => h m (List.mem_cons_of_mem x hm)
    simp [List.findSome?_cons, hx, ih hxs]

/-- C5: in tier 2, the language priority list is `["en"]` when the detected
language is `"en"` or the metadata probe failed, and
`["en", lang, lang ++ "-orig"]` for a truthy non-English detected language;
the languages are attempted in listed order (the first priority language with
a matching track wins), and when none of them matches an available track the
first available track of any language is used instead. -/
theorem claim_C5 (origLang : String) (tracks : List Track) :
    priorityLangs (origLangOf none) = ["en"]
    ∧ priorityLangs "en" = ["en"]
    ∧ (origLang ≠ "" → origLang ≠ "en" →
        priorityLangs origLang = ["en", origLang, origLang ++ "-orig"])
    ∧ ((∀ lang ∈ priorityLangs origLang,
          tracks.find? (fun t => t.lang = lang) = none) →
        selectTranscript tracks origLang = tracks.head?)
    ∧ (∀ (l1 : List String) (lang : String) (l2 : List String) (t : Track),
        priorityLangs origLang = l1 ++ lang :: l2 →
        (∀ m ∈ l1, tracks.find? (fun u => u.lang = m) = none) →
        tracks.find? (fun u => u.lang = lang) = some t →
        selectTranscript tracks origLang = some t) := by
  refine ⟨by decide, by decide, ?_, ?_, ?_⟩
  · intro h1 h2
    simp [priorityLangs, h1, h2]
  · intro hall
    have : (priorityLangs origLang).findSome?
        (fun lang => tracks.find? (fun t => t.lang = lang)) = none := by
      rw [List.findSome?_eq_none_iff]
      exact hall
    simp [selectTranscript, this]
  · intro l1 lang l2 t hdecomp h1 ht
    have : (priorityLangs origLang).findSome?
        (fun lang => tracks.find? (fun t => t.lang = lang)) = some t := by
      rw [hdecomp, findSome?_append_of_forall_none _ h1, List.findSome?_cons, ht]
    simp [selectTranscript, this]

/-- Closed witness for C5: with detected language `"uk"`, the priority list is
`["en", "uk", "uk-orig"]`; a track list with no English track selects the
`"uk"` track, and a track list matching no priority language selects its
first track. -/
theorem claim_C5_witness :
    priorityLangs "uk" = ["en", "uk", "uk-orig"]
    ∧ selectTranscript [⟨"de", "hallo"⟩, ⟨"uk", "tekst"⟩] "uk" = some ⟨"uk", "tekst"⟩
    ∧ selectTranscript [⟨"de", "hallo"⟩] "uk" = some ⟨"de", "hallo"⟩ := by
  have h := claim_C5 "uk" [⟨"de", "hallo"⟩, ⟨"uk", "tekst"⟩]
  have h2 := claim_C5 "uk" [⟨"de", "hallo"⟩]
  refine ⟨h.2.2.1 (by decide) (by decide),
    h.2.2.2.2 ["en"] "uk" ["uk-orig"] ⟨"uk", "tekst"⟩ (by decide) (by decide) (by decide),
    ?_⟩
  have h3 := h2.2.2.2.1 (by decide)
  simpa using h3

/-- The tier-3 deduplicating extension, written as plain recursion: the
languages of `ls` not already present, in order, each added at most once. -/
def appendNew (acc : List String) : List String → List String
  | [] => []
  | lang :: ls =>
    if lang ∈ acc then appendNew acc ls
    else lang :: appendNew (acc ++ [lang]) ls

theorem langsToTry_foldl_eq (ls : List String) :
    ∀ acc, ls.foldl (fun acc lang => if lang ∈ acc then acc else acc ++ [lang]) acc
      = acc ++ appendNew acc ls := by
  induction ls with
  | nil => intro acc; simp [appendNew]
  | cons lang ls ih =>
    intro acc
    by_cases h : lang ∈ acc
    · simp [appendNew, h, ih]
    · simp only [List.foldl_cons, appendNew, if_neg h, ih (acc ++ [lang])]
      simp

theorem appendNew_not_mem (ls : List String) :
    ∀ acc, ∀ l ∈ appendNew acc ls, l ∉ acc := by
  induction ls with
  | nil => intro acc l hl; simp [appendNew] at hl
  | cons lang ls ih =>
    intro acc l hl
    by_cases h : lang ∈ acc
    · rw [appendNew, if_pos h] at hl
      exact ih acc l hl
    · rw [appendNew, if_neg h] at hl
      rcases List.mem_cons.mp hl with h1 | h1
      · rw [h1]; exact h
      · have := ih (acc ++ [lang]) l h1
        intro hc
        exact this (List.mem_append_left _ hc)

theorem mem_append_appendNew (ls : List String) :
    ∀ acc, ∀ l ∈ ls, l ∈ acc ++ appendNew acc ls := by
  induction ls with
  | nil => intro acc l hl; simp at hl
  | cons lang ls ih =>
    intro acc l hl
    by_cases h : lang ∈ acc
    · rw [appendNew, if_pos h]
      rcases List.mem_cons.mp hl with h1 | h1
      · exact List.mem_append_left _ (h1 ▸ h)
      · exact ih acc l h1
    · rw [appendNew, if_neg h]
      rcases List.mem_cons.mp hl with h1 | h1
      · rw [h1]
        exact List.mem_append_right _ (List.mem_cons_self _ _)
      · have := ih (acc ++ [lang]) l h1
        rcases List.mem_append.mp this with h2 | h2
        · rcases List.mem_append.mp h2 with h3 | h3
          · exact List.mem_append_left _ h3
          · exact List.mem_append_right _ (by simp [List.mem_cons.mpr (Or.inl (List.mem_singleton.mp h3))])
        · exact List.mem_append_right _ (List.mem_cons_of_mem _ h2)

theorem downloadSubtitleFrom_congr {f g : Nat → DownloadResult}
    (h : ∀ n, f n = g n) :
    ∀ fuel attempt, downloadSubtitleFrom f attempt fuel
      = downloadSubtitleFrom g attempt fuel := by
  intro fuel
  induction fuel with
  | zero => intro attempt; rfl
  | succ fuel ih =>
    intro attempt
    simp only [downloadSubtitleFrom, h attempt, ih (attempt + 1)]

theorem tryLangs_append_falsy {d : String → Nat → DownloadResult}
    {l1 : List String} (h : ∀ m ∈ l1, pyFalsy (downloadSubtitle d m).text = true)
    (rest : List String) :
    tryLangs d (l1 ++ rest) = tryLangs d rest := by
  induction l1 with
  | nil => simp
  | cons m ms ih =>
    have hm := h m (List.mem_cons_self m ms)
    have hms : ∀ u ∈ ms, pyFalsy (downloadSubtitle d u).text = true :=
      fun u hu => h u (List.mem_cons_of_mem m hu)
    simp [tryLangs, hm, ih hms]

/-- C4: tier 3 builds its candidate list as the base
`["en", originalLanguage]` (collapsed to `["en"]` when the original language
is `"en"`) followed, in reported order and without duplicates, by every
caption language of the metadata probe not already listed; the languages are
tried in this order, each with its own fresh 3-attempt rate-limit retry
budget (3s/7s backoff), and the first language yielding a truthy parsed
transcript wins — the download oracle is never consulted for any later
language. -/
theorem claim_C4 (origLang : String) (info : Option Info) :
    langsToTry origLang info
        = baseLangs origLang ++ appendNew (baseLangs origLang) (availableLangs info)
    ∧ (origLang ≠ "en" → baseLangs origLang = ["en", origLang])
    ∧ baseLangs "en" = ["en"]
    ∧ (∀ lang ∈ availableLangs info, lang ∈ langsToTry origLang info)
    ∧ (∀ lang ∈ appendNew (baseLangs origLang) (availableLangs info),
        lang ∉ baseLangs origLang)
    ∧ (∀ (d : String → Nat → DownloadResult) (lang : String) (c : String),
        d lang 0 = .err true → d lang 1 = .err true → d lang 2 = .file c →
        downloadSubtitle d lang = ⟨parseVtt c, [3, 7]⟩)
    ∧ (∀ (d d' : String → Nat → DownloadResult) (l1 : List String)
         (lang : String) (l2 : List String) (t : String),
        (∀ m ∈ l1, pyFalsy (downloadSubtitle d m).text = true) →
        (downloadSubtitle d lang).text = some t → t ≠ "" →
        (∀ m ∈ l1, ∀ n, d' m n = d m n) → (∀ n, d' lang n = d lang n) →
        tryLangs d (l1 ++ lang :: l2) = some t
          ∧ tryLangs d' (l1 ++ lang :: l2) = some t) := by
  refine ⟨langsToTry_foldl_eq (availableLangs info) (baseLangs origLang), ?_, rfl,
    ?_, appendNew_not_mem (availableLangs info) (baseLangs origLang), ?_, ?_⟩
  · intro h; simp [baseLangs, h]
  · intro lang hl
    rw [langsToTry, langsToTry_foldl_eq]
    exact mem_append_appendNew (availableLangs info) (baseLangs origLang) lang hl
  · intro d lang c h0 h1 h2
    simp [downloadSubtitle, downloadSubtitleFrom, h0, h1, h2]
  · intro d d' l1 lang l2 t h1 ht htne hagree1 hagree2
    have hfalse : pyFalsy (some t) = false := by
      simp only [pyFalsy]
      rw [Bool.eq_false_iff]
      intro hc
      exact htne ((String.isEmpty_iff t).mp hc)
    have hd : tryLangs d (l1 ++ lang :: l2) = some t := by
      rw [tryLangs_append_falsy h1]
      simp [tryLangs, ht, hfalse]
    have hsub : ∀ m, (∀ n, d' m n = d m n) →
        downloadSubtitle d' m = downloadSubtitle d m := by
      intro m hm
      exact downloadSubtitleFrom_congr hm 3 0
    have h1' : ∀ m ∈ l1, pyFalsy (downloadSubtitle d' m).text = true := by
      intro m hm
      rw [hsub m (hagree1 m hm)]
      exact h1 m hm
    have ht' : (downloadSubtitle d' lang).text = some t := by
      rw [hsub lang hagree2]
      exact ht
    have hd' : tryLangs d' (l1 ++ lang :: l2) = some t := by
      rw [tryLangs_append_falsy h1']
      simp [tryLangs, ht', hfalse]
    exact ⟨hd, hd'⟩

/-- Closed witness for C4: detected language `"fr"`, metadata reporting
manual `"fr"` and automatic `"es"` captions gives the candidate list
`["en", "fr", "es"]`; with no English subtitle file, a rate-limited first
French attempt recovered on the second, and Spanish also available, the
French transcript wins and a download oracle differing only on `"es"` gives
the same result. -/
theorem claim_C4_witness :
    langsToTry "fr" (some ⟨some "fr", ["fr"], ["es"]⟩) = ["en", "fr", "es"]
    ∧ downloadSubtitle
        (fun lang n =>
          if lang = "en" then DownloadResult.noFile
          else if lang = "fr" then
            (if n = 0 then DownloadResult.err true
             else DownloadResult.file "WEBVTT\n\nBonjour")
          else DownloadResult.file "WEBVTT\n\nHola") "fr"
        = ⟨some "Bonjour", [3]⟩
    ∧ tryLangs
        (fun lang n =>
          if lang = "en" then DownloadResult.noFile
          else if lang = "fr" then
            (if n = 0 then DownloadResult.err true
             else DownloadResult.file "WEBVTT\n\nBonjour")
          else DownloadResult.file "WEBVTT\n\nHola") ["en", "fr", "es"]
        = some "Bonjour"
    ∧ tryLangs
        (fun lang n =>
          if lang = "en" then DownloadResult.noFile
          else if lang = "fr" then
            (if n = 0 then DownloadResult.err true
             else DownloadResult.file "WEBVTT\n\nBonjour")
          else DownloadResult.err false) ["en", "fr", "es"]
        = some "Bonjour" := by
  have h := claim_C4 "fr" (some ⟨some "fr", ["fr"], ["es"]⟩)
  have hwin := h.2.2.2.2.2.2
    (fun lang n =>
      if lang = "en" then DownloadResult.noFile
      else if lang = "fr" then
        (if n = 0 then DownloadResult.err true
         else DownloadResult.file "WEBVTT\n\nBonjour")
      else DownloadResult.file "WEBVTT\n\nHola")
    (fun lang n =>
      if lang = "en" then DownloadResult.noFile
      else if lang = "fr" then
        (if n = 0 then DownloadResult.err true
         else DownloadResult.file "WEBVTT\n\nBonjour")
      else DownloadResult.err false)
    ["en"] "fr" ["es"] "Bonjour" (by decide) (by decide) (by decide)
    (by intro m hm n; rcases List.mem_singleton.mp hm with h; subst h; rfl)
    (by intro n; rfl)
  exact ⟨by decide, by decide, hwin.1, hwin.2⟩

/-! ### `datetime` — ISO-8601 formatting and parsing

`bot/storage/models.py` serializes timestamps with `datetime.isoformat()` and
reads them back with `datetime.fromisoformat()`.  The library routines are
modelled concretely for naive datetimes: `isoformat` emits
`YYYY-MM-DDTHH:MM:SS` followed by `.ffffff` exactly when the microsecond
field is nonzero, and the parser is modelled on the shapes `isoformat`
emits. -/

/-- A naive Python `datetime` value. -/
structure DateTime where
  year : Nat
  month : Nat
  day : Nat
  hour : Nat
  minute : Nat
  second : Nat
  microsecond : Nat
deriving DecidableEq, Repr

/-- The decimal digit character for `n < 10`. -/
def digitChar (n : Nat) : Char := Char.ofNat (48 + n)

/-- Little-endian decimal digits of `n`, with explicit fuel (`n` itself is
always sufficient fuel since the value shrinks by a factor of ten each
step). -/
def natDigitsRevF : Nat → Nat → List Char
  | _, 0 => []
  | 0, _ + 1 => []
  | fuel + 1, n + 1 => digitChar ((n + 1) % 10) :: natDigitsRevF fuel ((n + 1) / 10)

/-- Big-endian decimal digit characters of `n` (empty for `0`). -/
def natRender (n : Nat) : List Char := (natDigitsRevF n n).reverse

/-- `n` rendered in decimal and left-padded with `'0'` to width `w`
(Python's `f"{n:0wd}"` for values that fit). -/
def padNum (w n : Nat) : List Char :=
  List.replicate (w - (natRender n).length) '0' ++ natRender n

/-- The digit value of a character, or `none` when it is not a digit. -/
def charDigit? (c : Char) : Option Nat :=
  if 48 ≤ c.toNat ∧ c.toNat ≤ 57 then some (c.toNat - 48) else none

/-- Read exactly `w` digit characters as a decimal number (most significant
first), returning the value and the remaining characters. -/
def readFixed : Nat → Nat → List Char → Option (Nat × List Char)
  | 0, acc, cs => some (acc, cs)
  | _ + 1, _, [] => none
  | w + 1, acc, c :: cs =>
    match charDigit? c with
    | some d => readFixed w (acc * 10 + d) cs
    | none => none

/-- Consume one expected literal character. -/
def expectChar (ch : Char) : List Char → Option (List Char)
  | [] => none
  | c :: cs => if c = ch then some cs else none

theorem natDigitsRevF_irrel :
    ∀ n f1 f2, n ≤ f1 → n ≤ f2 → natDigitsRevF f1 n = natDigitsRevF f2 n := by
  intro n
  induction n using Nat.strong_induction_on with
  | _ n ih =>
    intro f1 f2 h1 h2
    match n, f1, f2 with
    | 0, f1, f2 => cases f1 <;> cases f2 <;> rfl
    | k + 1, f1 + 1, f2 + 1 =>
      simp only [natDigitsRevF]
      have hdiv : (k + 1) / 10 < k + 1 := Nat.div_lt_self (Nat.succ_pos k) (by norm_num)
      have hle1 : (k + 1) / 10 ≤ f1 := by omega
      have hle2 : (k + 1) / 10 ≤ f2 := by omega
      rw [ih ((k + 1) / 10) hdiv f1 f2 hle1 hle2]

theorem natRender_step {n : Nat} (h : n ≠ 0) :
    natRender n = natRender (n / 10) ++ [digitChar (n % 10)] := by
  match n, h with
  | k + 1, _ =>
    have hdiv : (k + 1) / 10 < k + 1 := Nat.div_lt_self (Nat.succ_pos k) (by norm_num)
    simp only [natRender, natDigitsRevF, List.reverse_cons]
    rw [natDigitsRevF_irrel ((k + 1) / 10) k ((k + 1) / 10) (by omega) (le_refl _)]

theorem digitChar_toNat {d : Nat} (h : d < 10) : (digitChar d).toNat = 48 + d := by
  interval_cases d <;> decide

theorem digitChar_isDigit {d : Nat} (h : d < 10) : isAsciiDigit (digitChar d) = true := by
  interval_cases d <;> decide

theorem natRender_digits : ∀ n, ∀ c ∈ natRender n, isAsciiDigit c = true := by
  intro n
  induction n using Nat.strong_induction_on with
  | _ n ih =>
    intro c hc
    rcases Nat.eq_zero_or_pos n with h0 | h0
    · subst h0; simp [natRender, natDigitsRevF] at hc
    · rw [natRender_step (Nat.pos_iff_ne_zero.mp h0)] at hc
      rcases List.mem_append.mp hc with h1 | h1
      · exact ih (n / 10) (Nat.div_lt_self h0 (by norm_num)) c h1
      · rw [List.mem_singleton.mp h1]
        exact digitChar_isDigit (Nat.mod_lt n (by norm_num))

theorem natRender_length_le : ∀ n w, n < 10 ^ w → (natRender n).length ≤ w := by
  intro n
  induction n using Nat.strong_induction_on with
  | _ n ih =>
    intro w hw
    rcases Nat.eq_zero_or_pos n with h0 | h0
    · subst h0; simp [natRender, natDigitsRevF]
    · cases w with
      | zero => simp at hw; omega
      | succ s =>
        rw [natRender_step (Nat.pos_iff_ne_zero.mp h0)]
        have hdiv : n / 10 < 10 ^ s := by
          rw [Nat.div_lt_iff_lt_mul (by norm_num)]
          calc n < 10 ^ (s + 1) := hw
            _ = 10 ^ s * 10 := by ring
        have := ih (n / 10) (Nat.div_lt_self h0 (by norm_num)) s hdiv
        simp [List.length_append]
        omega

theorem natRender_foldl :
    ∀ n acc, (natRender n).foldl (fun a c => a * 10 + (c.toNat - 48)) acc
      = acc * 10 ^ (natRender n).length + n := by
  intro n
  induction n using Nat.strong_induction_on with
  | _ n ih =>
    intro acc
    rcases Nat.eq_zero_or_pos n with h0 | h0
    · subst h0; simp [natRender, natDigitsRevF]
    · rw [natRender_step (Nat.pos_iff_ne_zero.mp h0), List.foldl_append]
      have hmod : n % 10 < 10 := Nat.mod_lt n (by norm_num)
      simp only [List.foldl_cons, List.foldl_nil]
      rw [ih (n / 10) (Nat.div_lt_self h0 (by norm_num)) acc]
      rw [digitChar_toNat hmod]
      have : 48 + n % 10 - 48 = n % 10 := by omega
      rw [this]
      rw [List.length_append, List.length_singleton]
      have hdm := Nat.div_add_mod n 10
      ring_nf
      omega

theorem padNum_length {w n : Nat} (h : n < 10 ^ w) : (padNum w n).length = w := by
  have := natRender_length_le n w h
  simp [padNum, List.length_append, List.length_replicate]
  omega

theorem padNum_digits (w n : Nat) : ∀ c ∈ padNum w n, isAsciiDigit c = true := by
  intro c hc
  rcases List.mem_append.mp hc with h1 | h1
  · rw [List.eq_of_mem_replicate h1]; decide
  · exact natRender_digits n c h1

theorem foldl_replicate_zero :
    ∀ (m : Nat) (acc : Nat), (List.replicate m '0').foldl
      (fun a c => a * 10 + (c.toNat - 48)) acc = acc * 10 ^ m := by
  intro m
  induction m with
  | zero => intro acc; simp
  | succ k ih =>
    intro acc
    simp only [List.replicate_succ, List.foldl_cons]
    rw [ih]
    have : ('0' : Char).toNat - 48 = 0 := by decide
    rw [this]
    ring

theorem padNum_foldl {w n : Nat} (h : n < 10 ^ w) (acc : Nat) :
    (padNum w n).foldl (fun a c => a * 10 + (c.toNat - 48)) acc = acc * 10 ^ w + n := by
  have hlen := natRender_length_le n w h
  rw [padNum, List.foldl_append, foldl_replicate_zero, natRender_foldl]
  have hexp : w - (natRender n).length + (natRender n).length = w := by omega
  rw [mul_assoc, ← pow_add, hexp]

theorem readFixed_digits {ds : List Char} (hd : ∀ c ∈ ds, isAsciiDigit c = true) :
    ∀ acc rest, readFixed ds.length acc (ds ++ rest)
      = some (ds.foldl (fun a c => a * 10 + (c.toNat - 48)) acc, rest) := by
  induction ds with
  | nil => intro acc rest; rfl
  | cons c cs ih =>
    intro acc rest
    have hc := hd c (List.mem_cons_self c cs)
    have hcs : ∀ u ∈ cs, isAsciiDigit u = true := fun u hu => hd u (List.mem_cons_of_mem c hu)
    have hcd : charDigit? c = some (c.toNat - 48) := by
      simp only [charDigit?, if_pos (by simpa [isAsciiDigit, Bool.and_eq_true,
        decide_eq_true_eq] using hc)]
    simp only [List.length_cons, List.cons_append, readFixed, hcd, List.foldl_cons]
    exact ih hcs (acc * 10 + (c.toNat - 48)) rest

theorem readFixed_padNum {w n : Nat} (h : n < 10 ^ w) (rest : List Char) :
    readFixed w 0 (padNum w n ++ rest) = some (n, rest) := by
  have hlen := padNum_length h
  have := readFixed_digits (padNum_digits w n) 0 rest
  rw [hlen] at this
  rw [this, padNum_foldl h]
  simp

/-- `datetime.isoformat()` for a naive datetime:
`YYYY-MM-DDTHH:MM:SS` plus `.ffffff` exactly when the microsecond is
nonzero. -/
def isoformatChars (d : DateTime) : List Char :=
  padNum 4 d.year ++ ['-'] ++ padNum 2 d.month ++ ['-'] ++ padNum 2 d.day ++ ['T']
    ++ padNum 2 d.hour ++ [':'] ++ padNum 2 d.minute ++ [':'] ++ padNum 2 d.second
    ++ (if d.microsecond = 0 then [] else ['.'] ++ padNum 6 d.microsecond)

/-- `datetime.isoformat()`. -/
def DateTime.isoformat (d : DateTime) : String := ⟨isoformatChars d⟩

/-- `datetime.fromisoformat` on the shapes `isoformat` emits. -/
def fromisoChars (cs : List Char) : Option DateTime := do
  let (y, cs) ← readFixed 4 0 cs
  let cs ← expectChar '-' cs
  let (mo, cs) ← readFixed 2 0 cs
  let cs ← expectChar '-' cs
  let (dy, cs) ← readFixed 2 0 cs
  let cs ← expectChar 'T' cs
  let (h, cs) ← readFixed 2 0 cs
  let cs ← expectChar ':' cs
  let (mi, cs) ← readFixed 2 0 cs
  let cs ← expectChar ':' cs
  let (s, cs) ← readFixed 2 0 cs
  match cs with
  | [] => some ⟨y, mo, dy, h, mi, s, 0⟩
  | '.' :: cs2 => do
    let (us, cs3) ← readFixed 6 0 cs2
    if cs3 = [] then some ⟨y, mo, dy, h, mi, s, us⟩ else none
  | _ => none

/-- `datetime.fromisoformat`. -/
def fromisoformat (s : String) : Option DateTime := fromisoChars s.data

/-- The field bounds every Python `datetime` satisfies that make its ISO
rendering fixed-width (Python enforces the tighter
`1 ≤ month ≤ 12` etc.; only these widths matter for parsing). -/
def DateTime.Valid (d : DateTime) : Prop :=
  d.year < 10 ^ 4 ∧ d.month < 10 ^ 2 ∧ d.day < 10 ^ 2 ∧ d.hour < 10 ^ 2
    ∧ d.minute < 10 ^ 2 ∧ d.second < 10 ^ 2 ∧ d.microsecond < 10 ^ 6

/-- `fromisoformat` inverts `isoformat` on every in-range datetime. -/
theorem fromisoformat_isoformat {d : DateTime} (hv : d.Valid) :
    fromisoformat d.isoformat = some d := by
  obtain ⟨y, mo, dy, h, mi, s, us⟩ := d
  obtain ⟨h1, h2, h3, h4, h5, h6, h7⟩ := hv
  simp only [fromisoformat, DateTime.isoformat, isoformatChars]
  simp only [List.append_assoc, List.singleton_append, List.cons_append]
  show fromisoChars _ = _
  rw [fromisoChars]
  rw [readFixed_padNum h1]
  simp only [Option.bind_eq_bind, Option.some_bind, expectChar, List.nil_append,
    if_pos, eq_self_iff_true, if_true]
  rw [readFixed_padNum h2]
  simp only [Option.some_bind, List.nil_append, if_pos, eq_self_iff_true, if_true]
  rw [readFixed_padNum h3]
  simp only [Option.some_bind, List.nil_append, if_pos, eq_self_iff_true, if_true]
  rw [readFixed_padNum h4]
  simp only [Option.some_bind, List.nil_append, if_pos, eq_self_iff_true, if_true]
  rw [readFixed_padNum h5]
  simp only [Option.some_bind, List.nil_append, if_pos, eq_self_iff_true, if_true]
  by_cases hus : us = 0
  · subst hus
    simp only [if_pos, eq_self_iff_true, if_true, List.append_nil]
    rw [show (padNum 2 s : List Char) = padNum 2 s ++ ([] : List Char) by simp]
    rw [readFixed_padNum h6]
    simp only [Option.some_bind]
  · rw [if_neg hus]
    rw [readFixed_padNum h6]
    simp only [Option.some_bind, List.nil_append]
    rw [show padNum 6 us = padNum 6 us ++ ([] : List Char) by simp]
    rw [readFixed_padNum h7]
    simp

/-! ### `bot/storage/models.py` — persisted records

Python dictionaries and JSON values are modelled by a small JSON AST; the
standard `json` library's `dumps`/`loads` round trip is external and is
modelled as the identity on the AST, so `to_json`/`from_json` act on the AST
directly.  Dynamic typing is narrowed to the typed field domains the records
actually hold. -/

/-- A JSON value (numbers restricted to integers; the records under study
hold only strings, booleans, `null` and nested dicts/lists). -/
inductive Json where
  | null
  | bool (b : Bool)
  | num (n : Int)
  | str (s : String)
  | arr (xs : List Json)
  | obj (fields : List (String × Json))

/-- `data[k]` on a dict modelled as an association list. -/
def jlookup (fields : List (String × Json)) (k : String) : Option Json :=
  (fields.find? (fun p => p.1 = k)).map (fun p => p.2)

/-- The `Document` dataclass. -/
structure Document where
  doc_id : String
  url : String
  title : String
  content_type : String
  added_at : DateTime
  content_preview : String
deriving DecidableEq, Repr

/-- The `Message` dataclass (`metadata` is an optional JSON-representable
dict). -/
structure Message where
  message_id : String
  user_id : String
  timestamp : DateTime
  content : String
  is_bot : Bool
  metadata : Option Json

/-- `Document.to_dict`: `asdict(self)` with `added_at` replaced by its ISO
string, keys in dataclass field order. -/
def Document.to_dict (d : Document) : Json :=
  .obj [("doc_id", .str d.doc_id), ("url", .str d.url), ("title", .str d.title),
    ("content_type", .str d.content_type), ("added_at", .str d.added_at.isoformat),
    ("content_preview", .str d.content_preview)]

/-- The `Document` dataclass field names (`cls(**data)` rejects others). -/
def docKeys : List String :=
  ["doc_id", "url", "title", "content_type", "added_at", "content_preview"]

/-- `Document.from_dict`: parse `added_at` back with `fromisoformat` and
rebuild via `cls(**data)`; `none` models the exceptions raised on missing or
extra keys or an unparsable timestamp. -/
def Document.from_dict (j : Json) : Option Document :=
  match j with
  | .obj fields =>
    if fields.all (fun p => p.1 ∈ docKeys) then
      match jlookup fields "doc_id", jlookup fields "url", jlookup fields "title",
          jlookup fields "content_type", jlookup fields "added_at",
          jlookup fields "content_preview" with
      | some (.str i), some (.str u), some (.str t), some (.str ct),
          some (.str ts), some (.str cp) =>
        match fromisoformat ts with
        | some dt => some ⟨i, u, t, ct, dt, cp⟩
        | none => none
      | _, _, _, _, _, _ => none
    else none
  | _ => none

/-- `Message.to_dict`: `asdict(self)` with `timestamp` replaced by its ISO
string, keys in dataclass field order (`None` metadata serializes as
`null`). -/
def Message.to_dict (m : Message) : Json :=
  .obj [("message_id", .str m.message_id), ("user_id", .str m.user_id),
    ("timestamp", .str m.timestamp.isoformat), ("content", .str m.content),
    ("is_bot", .bool m.is_bot),
    ("metadata", match m.metadata with | none => .null | some j => j)]

/-- The `Message` dataclass field names. -/
def msgKeys : List String :=
  ["message_id", "user_id", "timestamp", "content", "is_bot", "metadata"]

/-- `Message.from_dict` (`metadata` defaults to `None` when the key is
missing, and a `null` value also reads back as `None`). -/
def Message.from_dict (j : Json) : Option Message :=
  match j with
  | .obj fields =>
    if fields.all (fun p => p.1 ∈ msgKeys) then
      match jlookup fields "message_id", jlookup fields "user_id",
          jlookup fields "timestamp", jlookup fields "content",
          jlookup fields "is_bot" with
      | some (.str mi), some (.str ui), some (.str ts), some (.str c),
          some (.bool b) =>
        match fromisoformat ts with
        | some dt =>
          some ⟨mi, ui, dt, c, b,
            match jlookup fields "metadata" with
            | none => none
            | some .null => none
            | some v => some v⟩
        | none => none
      | _, _, _, _, _ => none
    else none
  | _ => none

/-- `Message.to_json`: `json.dumps(self.to_dict())`, with the external
`dumps` modelled as the identity on the JSON value. -/
def Message.to_json (m : Message) : Json := m.to_dict

/-- `Message.from_json`: `cls.from_dict(json.loads(json_str))`, with the
external `loads` modelled as the identity on the JSON value. -/
def Message.from_json (j : Json) : Option Message := Message.from_dict j

/-- A `metadata` payload representable as a JSON dict (or absent). -/
def MetadataRepr : Option Json → Prop
  | none => True
  | some (.obj _) => True
  | some _ => False

/-- C10: serialization round trip of the persisted records — for every
`Message` with a JSON-representable metadata dict and an in-range timestamp,
`from_json (to_json m)` reconstructs `m` (the timestamp through the ISO
encode/decode), and for every `Document`, `from_dict (to_dict d)`
reconstructs `d`. -/
theorem claim_C10 (m : Message) (d : Document) (hm : MetadataRepr m.metadata)
    (htm : m.timestamp.Valid) (htd : d.added_at.Valid) :
    Message.from_json (Message.to_json m) = some m
    ∧ Document.from_dict (Document.to_dict d) = some d := by
  constructor
  · obtain ⟨mi, ui, ts, c, b, md⟩ := m
    simp only at htm
    cases md with
    | none =>
      simp [Message.to_json, Message.to_dict, Message.from_json, Message.from_dict,
        jlookup, msgKeys, fromisoformat_isoformat htm]
    | some j =>
      cases j with
      | null => exact absurd hm (by simp [MetadataRepr])
      | bool b2 => exact absurd hm (by simp [MetadataRepr])
      | num n => exact absurd hm (by simp [MetadataRepr])
      | str s => exact absurd hm (by simp [MetadataRepr])
      | arr xs => exact absurd hm (by simp [MetadataRepr])
      | obj fs =>
        simp [Message.to_json, Message.to_dict, Message.from_json, Message.from_dict,
          jlookup, msgKeys, fromisoformat_isoformat htm]
  · obtain ⟨i, u, t, ct, ts, cp⟩ := d
    simp only at htd
    simp [Document.to_dict, Document.from_dict, jlookup, docKeys,
      fromisoformat_isoformat htd]

/-- Closed witness for C10: a concrete message without metadata and a
concrete document (with a nonzero-microsecond timestamp) both round-trip. -/
theorem claim_C10_witness :
    Message.from_json (Message.to_json
        ⟨"m1", "u1", ⟨2024, 5, 17, 10, 30, 2, 0⟩, "hi", false, none⟩)
      = some ⟨"m1", "u1", ⟨2024, 5, 17, 10, 30, 2, 0⟩, "hi", false, none⟩
    ∧ Document.from_dict (Document.to_dict
        ⟨"d1", "https://example.com", "T", "web", ⟨2024, 5, 17, 10, 30, 2, 123⟩, "p"⟩)
      = some ⟨"d1", "https://example.com", "T", "web", ⟨2024, 5, 17, 10, 30, 2, 123⟩, "p"⟩ :=
  claim_C10 ⟨"m1", "u1", ⟨2024, 5, 17, 10, 30, 2, 0⟩, "hi", false, none⟩
    ⟨"d1", "https://example.com", "T", "web", ⟨2024, 5, 17, 10, 30, 2, 123⟩, "p"⟩
    trivial (by unfold DateTime.Valid; decide) (by unfold DateTime.Valid; decide)

/-! ### The per-user document index

`RAGManager` (per user) writes to two backing stores: the Chroma collection
(`EmbeddingStore`, modelled as a list of id/content/metadata entries) and the
flat `documents.json` metadata file (`FileStorage`, modelled as the list of
`Document` records).  The external vector database is modelled at its
interface boundary: `collection.get`/`add`/`update` by membership check,
replace-in-place and append; `collection.delete` by filtering, with a
`raises` flag for the call raising (the `except` path of
`EmbeddingStore.delete_document`); `collection.query` by a nearest-first
ranking oracle over the collection. -/

/-- The flat metadata record passed to `collection.add`/`update`
(`added_at` already an ISO string). -/
structure EntryMeta where
  url : String
  title : String
  content_type : String
  added_at : String
deriving DecidableEq, Repr

/-- One vector-index entry: the document id, the full content, and the flat
metadata record. -/
structure IndexEntry where
  id : String
  content : String
  metadata : EntryMeta
deriving DecidableEq, Repr

/-- `EmbeddingStore.add_document`: check whether the id already exists
(`collection.get`), update in place if so, else add. -/
def esAddDocument (coll : List IndexEntry) (doc_id content : String)
    (metadata : EntryMeta) : List IndexEntry :=
  if coll.any (fun e => e.id = doc_id) then
    coll.map (fun e => if e.id = doc_id then ⟨doc_id, content, metadata⟩ else e)
  else coll ++ [⟨doc_id, content, metadata⟩]

/-- `FileStorage.save_document`: replace the first record with the same
`doc_id`, else append. -/
def saveDocument : List Document → Document → List Document
  | [], d => [d]
  | x :: xs, d => if x.doc_id = d.doc_id then d :: xs else x :: saveDocument xs d

/-- The two backing stores of one user's index. -/
structure RagState where
  collection : List IndexEntry
  documents : List Document
deriving DecidableEq, Repr

/-- `RAGManager.add_document`: `doc_id = hashlib.md5(url).hexdigest()`
(the digest function is the `hash` parameter), build the `Document` record
with a bounded content preview and `added_at = datetime.now()` (the `now`
parameter), save it to storage, and upsert the embedding entry. -/
def ragAddDocument (hash : String → String) (maxPreview : Nat) (st : RagState)
    (url content title content_type : String) (now : DateTime) :
    RagState × Document :=
  let doc_id := hash url
  let document : Document :=
    ⟨doc_id, url, title, content_type, now, ⟨content.data.take maxPreview⟩⟩
  let documents := saveDocument st.documents document
  let collection := esAddDocument st.collection doc_id content
    ⟨url, title, content_type, now.isoformat⟩
  (⟨collection, documents⟩, document)

/-- One re-upsert payload (everything that may vary across submissions of
the same URL). -/
structure UpsertData where
  content : String
  title : String
  content_type : String
  now : DateTime

/-- `EmbeddingStore.delete_document`: `collection.delete(ids=[doc_id])`
then `True`, or `False` when the underlying call raises (`raises`). -/
def esDeleteDocument (raises : Bool) (coll : List IndexEntry) (doc_id : String) :
    List IndexEntry × Bool :=
  if raises then (coll, false)
  else (coll.filter (fun e => e.id ≠ doc_id), true)

/-- `FileStorage.delete_document`: filter out the records with this
`doc_id`; report `False` (and leave the file untouched) when nothing was
removed. -/
def fsDeleteDocument (docs : List Document) (doc_id : String) :
    List Document × Bool :=
  let new_documents := docs.filter (fun dd => dd.doc_id ≠ doc_id)
  if new_documents.length = docs.length then (docs, false)
  else (new_documents, true)

/-- `RAGManager.delete_document`: delete from the embedding store, delete
from storage, report `embedding_deleted or storage_deleted`. -/
def ragDeleteDocument (raises : Bool) (st : RagState) (doc_id : String) :
    RagState × Bool :=
  let ed := esDeleteDocument raises st.collection doc_id
  let sd := fsDeleteDocument st.documents doc_id
  (⟨ed.1, sd.1⟩, ed.2 || sd.2)

/-- `EmbeddingStore.query`: issue the similarity search with
`n_results = min(n_results, collection.count())`, returning the first `n`
entries of the ranking oracle's nearest-first ordering (and `[]` when the
result set comes back empty). -/
def esQuery (rank : String → List IndexEntry) (coll : List IndexEntry)
    (query_text : String) (n_results : Nat) : List IndexEntry :=
  let n := min n_results coll.length
  let results := (rank query_text).take n
  if results.isEmpty then [] else results

/-! ### Lemmas about the document index -/

theorem esAddDocument_mem (coll : List IndexEntry) (doc_id content : String)
    (metadata : EntryMeta) :
    (esAddDocument coll doc_id content metadata).any (fun e => e.id = doc_id) = true := by
  unfold esAddDocument
  split
  · rename_i h
    obtain ⟨e, he, hid⟩ := List.any_eq_true.mp h
    apply List.any_eq_true.mpr
    refine ⟨⟨doc_id, content, metadata⟩, ?_, by simp⟩
    apply List.mem_map.mpr
    exact ⟨e, he, by simp [of_decide_eq_true hid]⟩
  · apply List.any_eq_true.mpr
    exact ⟨⟨doc_id, content, metadata⟩, by simp, by simp⟩

theorem esAddDocument_length {coll : List IndexEntry} {doc_id : String}
    (content : String) (metadata : EntryMeta)
    (h : coll.any (fun e => e.id = doc_id) = true) :
    (esAddDocument coll doc_id content metadata).length = coll.length := by
  unfold esAddDocument
  rw [if_pos h, List.length_map]

theorem saveDocument_mem (docs : List Document) (d : Document) :
    (saveDocument docs d).any (fun x => x.doc_id = d.doc_id) = true := by
  induction docs with
  | nil => simp [saveDocument]
  | cons x xs ih =>
    by_cases hx : x.doc_id = d.doc_id <;> simp [saveDocument, hx, ih]

theorem saveDocument_length {docs : List Document} {d : Document}
    (h : docs.any (fun x => x.doc_id = d.doc_id) = true) :
    (saveDocument docs d).length = docs.length := by
  induction docs with
  | nil => simp at h
  | cons x xs ih =>
    by_cases hx : x.doc_id = d.doc_id
    · simp [saveDocument, hx]
    · simp only [saveDocument, if_neg hx, List.length_cons]
      rw [ih]
      simp [hx] at h
      simpa using h

theorem ragAdd_fold_preserve (hash : String → String) (maxPreview : Nat)
    (url : String) (ps : List UpsertData) :
    ∀ st : RagState,
      st.collection.any (fun e => e.id = hash url) = true →
      st.documents.any (fun dd => dd.doc_id = hash url) = true →
      (ps.foldl (fun s q =>
          (ragAddDocument hash maxPreview s url q.content q.title q.content_type q.now).1)
        st).collection.length = st.collection.length
      ∧ (ps.foldl (fun s q =>
          (ragAddDocument hash maxPreview s url q.content q.title q.content_type q.now).1)
        st).documents.length = st.documents.length
      ∧ (ps.foldl (fun s q =>
          (ragAddDocument hash maxPreview s url q.content q.title q.content_type q.now).1)
        st).collection.any (fun e => e.id = hash url) = true
      ∧ (ps.foldl (fun s q =>
          (ragAddDocument hash maxPreview s url q.content q.title q.content_type q.now).1)
        st).documents.any (fun dd => dd.doc_id = hash url) = true := by
  induction ps with
  | nil => intro st h1 h2; exact ⟨rfl, rfl, h1, h2⟩
  | cons q qs ih =>
    intro st h1 h2
    simp only [List.foldl_cons]
    set s1 : RagState :=
      (ragAddDocument hash maxPreview st url q.content q.title q.content_type q.now).1 with hs1
    have hc1 : s1.collection.length = st.collection.length := by
      rw [hs1]
      exact esAddDocument_length q.content _ h1
    have hd1 : s1.documents.length = st.documents.length := by
      rw [hs1]
      exact saveDocument_length h2
    have hm1 : s1.collection.any (fun e => e.id = hash url) = true := by
      rw [hs1]
      exact esAddDocument_mem _ _ _ _
    have hm2 : s1.documents.any (fun dd => dd.doc_id = hash url) = true := by
      rw [hs1]
      exact saveDocument_mem _ _
    obtain ⟨a1, a2, a3, a4⟩ := ih s1 hm1 hm2
    exact ⟨a1.trans hc1, a2.trans hd1, a3, a4⟩

/-- C2: `doc_id` is the deterministic digest of the URL alone, and upserting
the same URL any number of further times, with any contents, leaves both the
vector-index entry count and the metadata-record count exactly where one
upsert left them (the entry is updated in place, the record replaced rather
than appended). -/
theorem claim_C2 (hash : String → String) (maxPreview : Nat) (st : RagState)
    (url : String) (p : UpsertData) (ps : List UpsertData) :
    ((ragAddDocument hash maxPreview st url p.content p.title p.content_type p.now).2).doc_id
        = hash url
    ∧ (ps.foldl (fun s q =>
          (ragAddDocument hash maxPreview s url q.content q.title q.content_type q.now).1)
        (ragAddDocument hash maxPreview st url p.content p.title p.content_type p.now).1
      ).collection.length
        = ((ragAddDocument hash maxPreview st url p.content p.title p.content_type p.now).1
          ).collection.length
    ∧ (ps.foldl (fun s q =>
          (ragAddDocument hash maxPreview s url q.content q.title q.content_type q.now).1)
        (ragAddDocument hash maxPreview st url p.content p.title p.content_type p.now).1
      ).documents.length
        = ((ragAddDocument hash maxPreview st url p.content p.title p.content_type p.now).1
          ).documents.length := by
  refine ⟨rfl, ?_, ?_⟩
  · exact (ragAdd_fold_preserve hash maxPreview url ps _
      (esAddDocument_mem _ _ _ _) (saveDocument_mem _ _)).1
  · exact (ragAdd_fold_preserve hash maxPreview url ps _
      (esAddDocument_mem _ _ _ _) (saveDocument_mem _ _)).2.1

theorem length_filter_eq_iff {α : Type} (p : α → Bool) (l : List α) :
    (l.filter p).length = l.length ↔ ∀ a ∈ l, p a = true := by
  induction l with
  | nil => simp
  | cons x xs ih =>
    by_cases hx : p x = true
    · simp [hx, ih]
    · simp only [List.filter_cons, hx, if_neg, Bool.false_eq_true, not_false_iff,
        List.length_cons]
      constructor
      · intro h
        have := List.length_filter_le p xs
        omega
      · intro h
        exact absurd (h x (List.mem_cons_self x xs)) hx

/-- C6: `delete(user, doc_id)` returns true exactly when the id was present
in at least one of the two stores (under the collaborator contract that the
vector store's delete call fails exactly for ids absent from the vector
index); in particular deleting an id present in neither store returns false,
and after any delete no record with that id remains in either store (so
neither `list` nor `query` can return it). -/
theorem claim_C6 (raises : Bool) (st : RagState) (doc_id : String)
    (hr : raises = true ↔ ∀ e ∈ st.collection, e.id ≠ doc_id) :
    ((ragDeleteDocument raises st doc_id).2 = true ↔
      ((∃ e ∈ st.collection, e.id = doc_id) ∨ (∃ dd ∈ st.documents, dd.doc_id = doc_id)))
    ∧ ((∀ e ∈ st.collection, e.id ≠ doc_id) → (∀ dd ∈ st.documents, dd.doc_id ≠ doc_id) →
        (ragDeleteDocument raises st doc_id).2 = false)
    ∧ (∀ e ∈ (ragDeleteDocument raises st doc_id).1.collection, e.id ≠ doc_id)
    ∧ (∀ dd ∈ (ragDeleteDocument raises st doc_id).1.documents, dd.doc_id ≠ doc_id) := by
  have hcoll : (esDeleteDocument raises st.collection doc_id).2 = true
      ↔ ∃ e ∈ st.collection, e.id = doc_id := by
    cases raises with
    | true =>
      have hall := hr.mp rfl
      show (false = true) ↔ _
      simp only [Bool.false_eq_true, false_iff]
      rintro ⟨e, he, hid⟩
      exact hall e he hid
    | false =>
      have hval : esDeleteDocument false st.collection doc_id
          = (st.collection.filter (fun e => e.id ≠ doc_id), true) := rfl
      rw [hval]
      simp only [true_iff]
      by_contra hno
      push_neg at hno
      exact Bool.false_ne_true (hr.mpr hno)
  have hdocs : (fsDeleteDocument st.documents doc_id).2 = true
      ↔ ∃ dd ∈ st.documents, dd.doc_id = doc_id := by
    simp only [fsDeleteDocument]
    by_cases hl : (st.documents.filter (fun dd => dd.doc_id ≠ doc_id)).length
        = st.documents.length
    · rw [if_pos hl]
      have hall := (length_filter_eq_iff _ _).mp hl
      simp only [Bool.false_eq_true, false_iff]
      rintro ⟨dd, hdd, hid⟩
      have := hall dd hdd
      simp [hid] at this
    · rw [if_neg hl]
      simp only [true_iff]
      by_contra hno
      push_neg at hno
      apply hl
      apply (length_filter_eq_iff _ _).mpr
      intro a ha
      simpa using hno a ha
  refine ⟨?_, ?_, ?_, ?_⟩
  · simp only [ragDeleteDocument, Bool.or_eq_true]
    rw [hcoll, hdocs]
  · intro h1 h2
    simp only [ragDeleteDocument]
    rw [Bool.or_eq_false_iff]
    constructor
    · rw [Bool.eq_false_iff]
      intro hc
      obtain ⟨e, he, hid⟩ := hcoll.mp hc
      exact h1 e he hid
    · rw [Bool.eq_false_iff]
      intro hc
      obtain ⟨dd, hdd, hid⟩ := hdocs.mp hc
      exact h2 dd hdd hid
  · intro e he
    simp only [ragDeleteDocument] at he
    cases raises with
    | true =>
      simp only [esDeleteDocument, if_pos rfl] at he
      exact hr.mp rfl e he
    | false =>
      have hval : esDeleteDocument false st.collection doc_id
          = (st.collection.filter (fun e => e.id ≠ doc_id), true) := rfl
      rw [hval] at he
      have := List.of_mem_filter he
      simpa using this
  · intro dd hdd
    simp only [ragDeleteDocument, fsDeleteDocument] at hdd
    by_cases hl : (st.documents.filter (fun x => x.doc_id ≠ doc_id)).length
        = st.documents.length
    · rw [if_pos hl] at hdd
      have hall := (length_filter_eq_iff _ _).mp hl
      have := hall dd hdd
      simpa using this
    · rw [if_neg hl] at hdd
      have := List.of_mem_filter hdd
      simpa using this

/-- A concrete one-document index state for the delete witness. -/
def sampleState : RagState :=
  ⟨[⟨"a", "hello", ⟨"https://example.com", "T", "web", "2024-05-17T10:30:02"⟩⟩],
   [⟨"a", "https://example.com", "T", "web", ⟨2024, 5, 17, 10, 30, 2, 0⟩, "hello"⟩]⟩

/-- Closed witness for C6: deleting the present id `"a"` returns true and
leaves no record with that id; deleting the absent id `"b"` (where the
vector store's delete call fails) returns false. -/
theorem claim_C6_witness :
    (ragDeleteDocument false sampleState "a").2 = true
    ∧ (∀ e ∈ (ragDeleteDocument false sampleState "a").1.collection, e.id ≠ "a")
    ∧ (∀ dd ∈ (ragDeleteDocument false sampleState "a").1.documents, dd.doc_id ≠ "a")
    ∧ (ragDeleteDocument true sampleState "b").2 = false := by
  have h1 := claim_C6 false sampleState "a" (by decide)
  have h2 := claim_C6 true sampleState "b" (by decide)
  refine ⟨?_, h1.2.2.1, h1.2.2.2, ?_⟩
  · exact h1.1.mpr (Or.inl ⟨_, List.mem_cons_self _ _, rfl⟩)
  · exact h2.2.1 (by decide) (by decide)

/-- C7: the requested result count is clamped to the index's current size
before the similarity search is issued (the result length is
`min k count`), the empty index yields the empty sequence rather than an
error, and every result comes from the index. -/
theorem claim_C7 (rank : String → List IndexEntry) (coll : List IndexEntry)
    (query_text : String) (k : Nat) (hr : ∀ q, (rank q).Perm coll) :
    (esQuery rank coll query_text k).length = min k coll.length
    ∧ (coll = [] → esQuery rank coll query_text k = [])
    ∧ (∀ e ∈ esQuery rank coll query_text k, e ∈ coll) := by
  have hlen : (rank query_text).length = coll.length := (hr query_text).length_eq
  have htake : ((rank query_text).take (min k coll.length)).length = min k coll.length := by
    rw [List.length_take, hlen]
    have : min k coll.length ≤ coll.length := Nat.min_le_right k coll.length
    omega
  refine ⟨?_, ?_, ?_⟩
  · simp only [esQuery]
    split
    · rename_i hempty
      rw [List.isEmpty_iff] at hempty
      rw [hempty] at htake
      simp only [List.length_nil] at htake ⊢
      exact htake
    · exact htake
  · intro hcoll
    subst hcoll
    simp [esQuery]
  · intro e he
    simp only [esQuery] at he
    split at he
    · simp at he
    · have := List.mem_of_mem_take he
      exact ((hr query_text).mem_iff).mp this

/-- Closed witness for C7: over the one-entry index a request for 5 results
returns exactly 1, and over the empty index the query returns the empty
sequence. -/
theorem claim_C7_witness :
    (esQuery (fun _ => sampleState.collection) sampleState.collection "question" 5).length
        = min 5 sampleState.collection.length
    ∧ esQuery (fun _ => ([] : List IndexEntry)) [] "question" 3 = [] := by
  have h1 := claim_C7 (fun _ => sampleState.collection) sampleState.collection
    "question" 5 (fun _ => List.Perm.refl _)
  have h2 := claim_C7 (fun _ => ([] : List IndexEntry)) [] "question" 3
    (fun _ => List.Perm.refl _)
  exact ⟨h1.1, h2.2.1 rfl⟩

end Summarizator
